import Mathlib

/-!
Shallow embedding of the four Python utilities of the repository
(misra-code-friend): the code-snippet extractor
(fixed_response_code_snippet.py), the line-number adder (numbering.py),
the line-number stripper (denumbering.py) and the spreadsheet violation
extractor (excel_utils.py).  Python strings are modelled as List Char;
file handling is modelled away: each tool is embedded as the pure
transformation it performs on the text it reads.  The whitespace and
digit classes are the ASCII portions of the Python classes (the inputs
of the repository are ASCII); where a Python regex backtracks, the
embedding implements the deterministic outcome of that backtracking,
justified in a comment at the definition.
-/

/-- Python whitespace test, covering the characters of the ASCII range
that Python str.strip, str.split and the regex class \s treat as
whitespace, plus the C1 control whitespace codes and NEL. -/
def pyIsSpace (c : Char) : Bool :=
  c = ' ' || c = '\t' || c = '\n' || c = '\r' || c = '\x0b' || c = '\x0c' ||
  c = '\x1c' || c = '\x1d' || c = '\x1e' || c = '\x1f' || c = '\x85'

/-- Decimal digit test: the regex class \d restricted to ASCII. -/
def pyIsDigit (c : Char) : Bool :=
  '0' ≤ c && c ≤ '9'

/-- ASCII letter test: the regex class [a-zA-Z]. -/
def pyIsAlpha (c : Char) : Bool :=
  ('a' ≤ c && c ≤ 'z') || ('A' ≤ c && c ≤ 'Z')

/-- Python str.lstrip for the modelled whitespace class. -/
def pyLstrip (l : List Char) : List Char :=
  l.dropWhile pyIsSpace

/-- Python str.rstrip for the modelled whitespace class. -/
def pyRstrip (l : List Char) : List Char :=
  (l.reverse.dropWhile pyIsSpace).reverse

/-- Python str.strip for the modelled whitespace class. -/
def pyStrip (l : List Char) : List Char :=
  pyRstrip (pyLstrip l)

/-- Line-boundary test of Python str.splitlines (the boundaries of the
ASCII and Latin-1 range; the two Unicode separators are included as
well for faithfulness). -/
def pyIsLineBreak (c : Char) : Bool :=
  c = '\n' || c = '\r' || c = '\x0b' || c = '\x0c' ||
  c = '\x1c' || c = '\x1d' || c = '\x1e' || c = '\x85' ||
  c = '\u2028' || c = '\u2029'

/-- Python str.splitlines: split at every line boundary, treating the
pair CR LF as a single boundary; boundary characters are not kept and
no empty final line is produced for a trailing boundary. -/
def pySplitlines : List Char → List (List Char)
  | [] => []
  | '\r' :: '\n' :: cs => [] :: pySplitlines cs
  | c :: cs =>
    if pyIsLineBreak c then
      [] :: pySplitlines cs
    else
      match pySplitlines cs with
      | [] => [[c]]
      | l :: ls => (c :: l) :: ls

/-- Iteration over a text file as Python file iteration yields it:
segments ending at a newline, the newline kept, a final segment without
a newline kept as well (text mode has already normalised the newline
style to a single line feed). -/
def pyFileLines : List Char → List (List Char)
  | [] => []
  | c :: cs =>
    if c = '\n' then
      ['\n'] :: pyFileLines cs
    else
      match pyFileLines cs with
      | [] => [[c]]
      | l :: ls => (c :: l) :: ls

/-- Decimal digits of a natural number, most significant first, with a
fuel argument making the recursion structural. -/
def natDecimalAux : Nat → Nat → List Char
  | 0, _ => []
  | fuel + 1, n =>
    if n < 10 then [Nat.digitChar n]
    else natDecimalAux fuel (n / 10) ++ [Nat.digitChar (n % 10)]

/-- Decimal notation of a natural number, as the Python f-string
interpolation of a nonnegative int renders it. -/
def natDecimal (n : Nat) : List Char :=
  natDecimalAux (n + 1) n

/-- Value of a list of decimal digit characters, as the Python int
constructor reads a digit string. -/
def digitsToNat (ds : List Char) : Nat :=
  ds.foldl (fun a c => 10 * a + (c.toNat - 48)) 0

/-- Matcher of the per-line regex of the snippet extractor,
re.match applied with pattern caret (digits+)(letters*) colon (rest).
The regex groups are greedy, and since a letter is never a digit and a
colon is neither, backtracking can never produce a match the maximal
munch misses: the line matches exactly when it is digits, then letters,
then a colon; group 1 is the digits and letters, group 2 the rest of
the line (lines carry no newline, so dot and the dollar anchor cover
the whole remainder). -/
def matchLine (l : List Char) : Option (List Char × List Char) :=
  let ds := l.takeWhile pyIsDigit
  if ds.isEmpty then none
  else
    let r1 := l.dropWhile pyIsDigit
    let letters := r1.takeWhile pyIsAlpha
    match r1.dropWhile pyIsAlpha with
    | ':' :: rest => some (ds ++ letters, rest)
    | _ => none

/-- Insertion into an association list with in-place overwrite of the
first binding of the key, mirroring assignment into a Python dict. -/
def dictUpsert : List (List Char × List Char) → List Char → List Char →
    List (List Char × List Char)
  | [], k, v => [(k, v)]
  | (k2, v2) :: t, k, v =>
    if k2 = k then (k, v) :: t else (k2, v2) :: dictUpsert t k v

/-- Lookup in an association list: first binding wins, mirroring a
Python dict read. -/
def dictLookup : List (List Char × List Char) → List Char →
    Option (List Char)
  | [], _ => none
  | (k2, v2) :: t, k => if k2 = k then some v2 else dictLookup t k

/-- Piece of the fence-opening regex after the optional language tag:
the greedy run of whitespace followed by a required newline.  Greedy
matching with backtracking consumes the maximal whitespace run up to
and including its last newline; when the run holds no newline the piece
fails. -/
def matchWsNl (l : List Char) : Option (List Char) :=
  let run := l.takeWhile pyIsSpace
  if '\n' ∈ run then
    some ((run.reverse.takeWhile (fun c => c ≠ '\n')).reverse ++
      l.dropWhile pyIsSpace)
  else none

/-- Opening fence after the three backticks: the optional tag group
tries the alternatives cpp, then c++, then the empty tag, in regex
alternation order, each followed by the whitespace-newline piece; the
first alternative whose continuation succeeds wins.  A literal tag
match whose continuation fails falls through to the later alternatives
exactly as regex backtracking does. -/
def matchOpen (l : List Char) : Option (List Char) :=
  (if l.take 3 = ['c', 'p', 'p'] then matchWsNl (l.drop 3) else none) <|>
  (if l.take 3 = ['c', '+', '+'] then matchWsNl (l.drop 3) else none) <|>
  matchWsNl l

/-- Scan for the closing fence: the non-greedy dot-all group of the
block regex collects characters up to the first occurrence of three
backticks; the result is the collected content and the text after the
closing fence. -/
def findClose : List Char → Option (List Char × List Char)
  | [] => none
  | c :: cs =>
    if (c :: cs).take 3 = ['`', '`', '`'] then some ([], cs.drop 2)
    else (findClose cs).map (fun p => (c :: p.1, p.2))

/-- Attempt of the whole block regex at one start position: three
backticks, the opening-fence remainder, then the non-greedy content up
to a closing fence.  When no closing fence exists, no backtrack of the
earlier pieces can help (the alternatives exclude one another and the
whitespace run holds no backtick), so the attempt fails as in re. -/
def tryMatchAt (l : List Char) : Option (List Char × List Char) :=
  if l.take 3 = ['`', '`', '`'] then
    match matchOpen (l.drop 3) with
    | some r2 => findClose r2
    | none => none
  else none

/-- Scan of re.findall: try the block pattern at each position from the
left; on success emit the content group and resume after the match, on
failure advance one character.  The fuel argument (an upper bound on
the remaining length) makes the recursion structural; a successful
match always consumes at least one character. -/
def findBlocksAux : Nat → List Char → List (List Char)
  | 0, _ => []
  | _ + 1, [] => []
  | fuel + 1, c :: cs =>
    match tryMatchAt (c :: cs) with
    | some (b, rest) => b :: findBlocksAux fuel rest
    | none => findBlocksAux fuel cs

/-- All fenced code blocks of the response text, in order, as the
findall call of the extractor returns them. -/
def findBlocks (s : List Char) : List (List Char) :=
  findBlocksAux s.length s

/-- Lines examined inside one extracted block: the block is stripped as
a whole (Python str.strip) and then split (Python str.splitlines). -/
def blockLines (b : List Char) : List (List Char) :=
  pySplitlines (pyStrip b)

/-- One step of the extractor loop body over a line of a block: a
matching line binds its stripped label to the rstripped code group in
the dictionary, a non-matching line is appended to the emitted stderr
diagnostics. -/
def snippetStep (st : List (List Char × List Char) × List (List Char))
    (line : List Char) :
    List (List Char × List Char) × List (List Char) :=
  match matchLine line with
  | some (lab, rest) => (dictUpsert st.1 (pyStrip lab) (pyRstrip rest), st.2)
  | none => (st.1, st.2 ++ [line])

/-- The snippet extractor of fixed_response_code_snippet.py.  The first
component is the returned dictionary (an association list in insertion
order); the second component records the skipped lines reported on
stderr, in emission order, modelling the print to sys.stderr. -/
def extract_snippets_from_response (s : List Char) :
    List (List Char × List Char) × List (List Char) :=
  (findBlocks s).foldl
    (fun st b => (blockLines b).foldl snippetStep st) ([], [])

/-- Conforming label-code pairs of a list of block lines, in order. -/
def lineEntriesOf (ls : List (List Char)) : List (List Char × List Char) :=
  ls.filterMap (fun l => (matchLine l).map
    (fun p => (pyStrip p.1, pyRstrip p.2)))

/-- Non-conforming lines of a list of block lines, in order. -/
def skippedIn (ls : List (List Char)) : List (List Char) :=
  ls.filter (fun l => (matchLine l).isNone)

/-- All conforming label-code pairs of a response, blocks in order. -/
def blockEntries (s : List Char) : List (List Char × List Char) :=
  ((findBlocks s).map (fun b => lineEntriesOf (blockLines b))).flatten

/-- All skipped lines of a response, blocks in order. -/
def skippedOf (s : List Char) : List (List Char) :=
  ((findBlocks s).map (fun b => skippedIn (blockLines b))).flatten

/-- Dictionary built from a list of label-code pairs by repeated
insertion, first to last. -/
def buildDict (es : List (List Char × List Char)) :
    List (List Char × List Char) :=
  es.foldl (fun d e => dictUpsert d e.1 e.2) []

/-- Numbered rendering of a list of file lines starting at a given
index: each line is written prefixed by its decimal index, a colon and
a space, as the f-string of numbering.py renders it. -/
def numberedLines : Nat → List (List Char) → List (List Char)
  | _, [] => []
  | i, l :: ls => (natDecimal i ++ ':' :: ' ' :: l) :: numberedLines (i + 1) ls

/-- The line-number adder of numbering.py as a transformation of file
content: every line of the input, in order, written with the prefixed
one-based index. -/
def add_line_numbers (content : List Char) : List Char :=
  (numberedLines 1 (pyFileLines content)).flatten

/-- One application of the substitution of denumbering.py to a line:
re.sub with the anchored pattern of one or more digits, then letters,
then a colon, then at most one whitespace character, replaced by the
empty string.  The caret without the multiline flag anchors the sole
possible match at the start, and as in matchLine the greedy classes
admit no other backtrack; the optional whitespace is consumed greedily,
so it can consume the newline of a line such as 12: followed by the
line end. -/
def stripLine (l : List Char) : List Char :=
  let ds := l.takeWhile pyIsDigit
  if ds.isEmpty then l
  else
    match (l.dropWhile pyIsDigit).dropWhile pyIsAlpha with
    | ':' :: rest =>
      match rest with
      | w :: r2 => if pyIsSpace w then r2 else rest
      | [] => []
    | _ => l

/-- The line-number stripper of denumbering.py as a transformation of
file content: each line rewritten by the substitution, outputs
concatenated in order. -/
def remove_line_numbers (content : List Char) : List Char :=
  ((pyFileLines content).map stripLine).flatten

/-- Row of the spreadsheet as excel_utils.py reads it: the six columns
of the worksheet, each cell modelled as text (the Line and Warning
column is the combined cell the tool splits). -/
structure ExcelRow where
  File : List Char
  Path : List Char
  lineAndWarning : List Char
  Level : List Char
  Misra : List Char

/-- Violation record produced by excel_utils.py for one matching row. -/
structure Violation where
  File : List Char
  Path : List Char
  Line : Option Nat
  Warning : List Char
  Level : List Char
  Misra : List Char
deriving DecidableEq

/-- Piece of the cell regex after the closing bracket: greedy
whitespace, then the greedy group of at least one character other than
a newline.  Backtracking semantics: when text remains after the maximal
whitespace run, the group starts there and collects up to the first
newline; otherwise the whitespace run gives back characters until a
character other than a newline is found, and since everything after it
in the run is newlines, the group is that single character; when the
run is all newlines the piece fails. -/
def wsThenMessage (rest : List Char) : Option (List Char) :=
  let run := rest.takeWhile pyIsSpace
  match rest.dropWhile pyIsSpace with
  | [] =>
    match run.reverse.dropWhile (fun c => c = '\n') with
    | [] => none
    | c :: _ => some [c]
  | t => some (t.takeWhile (fun c => c ≠ '\n'))

/-- Matcher of the cell regex of excel_utils.py: the literal opening
bracket and the word Line, a space, the digit group, the closing
bracket, then whitespace and the message group.  On success the digit
group is read as an int and paired with the message group. -/
def matchLineWarning (l : List Char) : Option (Nat × List Char) :=
  if l.take 6 = "[Line ".data then
    let r := l.drop 6
    let ds := r.takeWhile pyIsDigit
    if ds.isEmpty then none
    else
      match r.dropWhile pyIsDigit with
      | ']' :: rest => (wsThenMessage rest).map (fun m => (digitsToNat ds, m))
      | _ => none
  else none

/-- The helper parse_line_warning of excel_utils.py: a matching cell
splits into the numeric line and the message text; any other cell
yields no line number and the original cell text as the warning. -/
def parse_line_warning (text : List Char) : Option Nat × List Char :=
  match matchLineWarning text with
  | some (n, m) => (some n, m)
  | none => (none, text)

/-- The row-processing part of extract_violations_for_file: every row
gets its cell split by parse_line_warning, the rows whose File column
equals the target are kept in order, and each is rendered as a
violation record. -/
def extract_violations_for_file (rows : List ExcelRow)
    (target : List Char) : List Violation :=
  (rows.filter (fun r => r.File = target)).map
    (fun r =>
      let p := parse_line_warning r.lineAndWarning
      { File := r.File, Path := r.Path, Line := p.1, Warning := p.2,
        Level := r.Level, Misra := r.Misra })

/-- The whole guarded operation of excel_utils.py: reading the workbook
is fallible, modelled by an Except input standing for the outcome of
pd.read_excel and the column accesses; the surrounding try block turns
any raised error into the printed stderr diagnostic and an empty list.
The first component is the returned list, the second the stderr
diagnostics. -/
def extract_violations_io (input : Except (List Char) (List ExcelRow))
    (target : List Char) : List Violation × List (List Char) :=
  match input with
  | .error e => ([], ["Error parsing Excel file: ".data ++ e])
  | .ok rows => (extract_violations_for_file rows target, [])

theorem dropWhile_head_false (p : Char → Bool) :
    ∀ (l : List Char) (c : Char) (t : List Char),
      l.dropWhile p = c :: t → p c = false := by
  intro l
  induction l with
  | nil => intro c t h; simp [List.dropWhile] at h
  | cons a as ih =>
    intro c t h
    by_cases hp : p a
    · rw [List.dropWhile_cons_of_pos hp] at h
      exact ih c t h
    · rw [List.dropWhile_cons_of_neg hp] at h
      cases h
      simpa using hp

theorem takeWhile_append_all (p : Char → Bool)
    (xs ys : List Char) (h : ∀ x ∈ xs, p x = true) :
    (xs ++ ys).takeWhile p = xs ++ ys.takeWhile p := by
  induction xs with
  | nil => simp
  | cons a as ih =>
    have ha : p a = true := h a (by simp)
    simp only [List.cons_append, List.takeWhile_cons, ha, if_true]
    rw [ih (fun x hx => h x (by simp [hx]))]

theorem dropWhile_append_all (p : Char → Bool)
    (xs ys : List Char) (h : ∀ x ∈ xs, p x = true) :
    (xs ++ ys).dropWhile p = ys.dropWhile p := by
  induction xs with
  | nil => simp
  | cons a as ih =>
    have ha : p a = true := h a (by simp)
    simp only [List.cons_append, List.dropWhile_cons, ha, if_true]
    exact ih (fun x hx => h x (by simp [hx]))

theorem pyIsDigit_facts (c : Char) (h : pyIsDigit c = true) :
    pyIsSpace c = false ∧ pyIsAlpha c = false ∧
      c ≠ ':' ∧ c ≠ '\n' ∧ c ≠ '`' := by
  simp only [pyIsDigit, Bool.and_eq_true, decide_eq_true_eq] at h
  obtain ⟨h1, h2⟩ := h
  refine ⟨?_, ?_, ?_, ?_, ?_⟩
  · simp only [pyIsSpace, Bool.or_eq_false_iff, decide_eq_false_iff_not]
    refine ⟨⟨⟨⟨⟨⟨⟨⟨⟨⟨?_, ?_⟩, ?_⟩, ?_⟩, ?_⟩, ?_⟩, ?_⟩, ?_⟩, ?_⟩, ?_⟩, ?_⟩ <;>
      rintro rfl <;> revert h1 h2 <;> decide
  · simp only [pyIsAlpha, Bool.or_eq_false_iff, Bool.and_eq_false_iff,
      decide_eq_false_iff_not, not_le]
    constructor
    · left
      exact lt_of_le_of_lt h2 (by decide)
    · left
      exact lt_of_le_of_lt h2 (by decide)
  · rintro rfl; revert h2; decide
  · rintro rfl; revert h1; decide
  · rintro rfl; revert h2; decide

theorem digitChar_is_digit : ∀ d, d < 10 → pyIsDigit (Nat.digitChar d) = true := by
  decide

theorem natDecimalAux_eq (n : Nat) :
    ∀ f, n < f → natDecimalAux f n = natDecimal n := by
  induction n using Nat.strong_induction_on with
  | _ n ih =>
    intro f hf
    obtain ⟨f', rfl⟩ : ∃ f2, f = f2 + 1 := ⟨f - 1, by omega⟩
    by_cases h10 : n < 10
    · simp [natDecimalAux, natDecimal, h10]
    · have hdiv : n / 10 < n := Nat.div_lt_self (by omega) (by omega)
      have l1 : natDecimalAux f' (n / 10) = natDecimal (n / 10) :=
        ih (n / 10) hdiv f' (by omega)
      have l2 : natDecimalAux n (n / 10) = natDecimal (n / 10) :=
        ih (n / 10) hdiv n (by omega)
      simp only [natDecimalAux, natDecimal, h10, if_false]
      rw [l1, l2]

theorem natDecimal_unfold (n : Nat) :
    natDecimal n = if n < 10 then [Nat.digitChar n]
      else natDecimal (n / 10) ++ [Nat.digitChar (n % 10)] := by
  by_cases h10 : n < 10
  · simp [natDecimal, natDecimalAux, h10]
  · have h1 : natDecimal n = natDecimalAux (n + 1) n := rfl
    have h2 : natDecimalAux (n + 1) n =
        natDecimalAux n (n / 10) ++ [Nat.digitChar (n % 10)] := by
      simp [natDecimalAux, h10]
    rw [h1, h2, natDecimalAux_eq (n / 10) n (by omega), if_neg h10]

theorem natDecimal_ne_nil (n : Nat) : natDecimal n ≠ [] := by
  rw [natDecimal_unfold]
  by_cases h10 : n < 10 <;> simp [h10]

theorem natDecimal_all_digits (n : Nat) :
    ∀ c ∈ natDecimal n, pyIsDigit c = true := by
  induction n using Nat.strong_induction_on with
  | _ n ih =>
    rw [natDecimal_unfold]
    by_cases h10 : n < 10
    · simp only [h10, if_true, List.mem_singleton]
      rintro c rfl
      exact digitChar_is_digit n h10
    · have hdiv : n / 10 < n := Nat.div_lt_self (by omega) (by omega)
      simp only [h10, if_false, List.mem_append, List.mem_singleton]
      rintro c (hc | rfl)
      · exact ih (n / 10) hdiv c hc
      · exact digitChar_is_digit (n % 10) (Nat.mod_lt n (by omega))

theorem digitsToNat_natDecimal (n : Nat) :
    digitsToNat (natDecimal n) = n := by
  induction n using Nat.strong_induction_on with
  | _ n ih =>
    rw [natDecimal_unfold]
    have hd : ∀ d, d < 10 → (Nat.digitChar d).toNat - 48 = d := by decide
    by_cases h10 : n < 10
    · simp only [h10, if_true, digitsToNat, List.foldl_cons, List.foldl_nil]
      rw [hd n h10]
      omega
    · have hdiv : n / 10 < n := Nat.div_lt_self (by omega) (by omega)
      simp only [h10, if_false, digitsToNat, List.foldl_append,
        List.foldl_cons, List.foldl_nil]
      have hrec := ih (n / 10) hdiv
      simp only [digitsToNat] at hrec
      rw [hrec, hd (n % 10) (Nat.mod_lt n (by omega))]
      omega

theorem snippet_foldl_lines (ls : List (List Char)) :
    ∀ d sk, ls.foldl snippetStep (d, sk) =
      ((lineEntriesOf ls).foldl (fun d2 e => dictUpsert d2 e.1 e.2) d,
        sk ++ skippedIn ls) := by
  induction ls with
  | nil => intro d sk; simp [lineEntriesOf, skippedIn]
  | cons l ls ih =>
    intro d sk
    simp only [List.foldl_cons]
    cases hm : matchLine l with
    | some p =>
      rw [show snippetStep (d, sk) l =
          (dictUpsert d (pyStrip p.1) (pyRstrip p.2), sk) by
        simp [snippetStep, hm]]
      rw [ih]
      simp [lineEntriesOf, skippedIn, hm]
    | none =>
      rw [show snippetStep (d, sk) l = (d, sk ++ [l]) by
        simp [snippetStep, hm]]
      rw [ih]
      simp [lineEntriesOf, skippedIn, hm]

theorem snippet_foldl_blocks (bs : List (List Char)) :
    ∀ d sk, bs.foldl (fun st b => (blockLines b).foldl snippetStep st)
        (d, sk) =
      (((bs.map (fun b => lineEntriesOf (blockLines b))).flatten).foldl
          (fun d2 e => dictUpsert d2 e.1 e.2) d,
        sk ++ ((bs.map (fun b => skippedIn (blockLines b))).flatten)) := by
  induction bs with
  | nil => intro d sk; simp
  | cons b bs ih =>
    intro d sk
    simp only [List.foldl_cons, List.map_cons, List.flatten_cons]
    rw [snippet_foldl_lines, ih]
    simp [List.foldl_append]

theorem extract_snippets_eq (s : List Char) :
    extract_snippets_from_response s =
      (buildDict (blockEntries s), skippedOf s) := by
  simp only [extract_snippets_from_response, buildDict, blockEntries,
    skippedOf]
  rw [snippet_foldl_blocks]
  simp

theorem dictLookup_upsert (d : List (List Char × List Char))
    (k v : List Char) :
    ∀ k2, dictLookup (dictUpsert d k v) k2 =
      if k2 = k then some v else dictLookup d k2 := by
  induction d with
  | nil =>
    intro k2
    by_cases h : k2 = k
    · subst h; simp [dictUpsert, dictLookup]
    · simp [dictUpsert, dictLookup, h, Ne.symm h]
  | cons a t ih =>
    intro k2
    by_cases ha : a.1 = k
    · by_cases h : k2 = k
      · subst h
        simp [dictUpsert, dictLookup, ha]
      · have h3 : ¬a.1 = k2 := fun hh => h (ha.symm.trans hh).symm
        simp [dictUpsert, dictLookup, ha, h, Ne.symm h, h3]
    · by_cases h2 : a.1 = k2
      · have hk : ¬k2 = k := fun hh => ha (h2.trans hh)
        simp [dictUpsert, dictLookup, ha, h2, hk]
      · simp [dictUpsert, dictLookup, ha, h2, ih]

theorem buildDict_concat (es : List (List Char × List Char))
    (e : List Char × List Char) :
    buildDict (es ++ [e]) = dictUpsert (buildDict es) e.1 e.2 := by
  simp [buildDict, List.foldl_append]

theorem dictLookup_buildDict (es : List (List Char × List Char)) :
    ∀ k, dictLookup (buildDict es) k =
      (es.reverse.find? (fun e => decide (e.1 = k))).map Prod.snd := by
  induction es using List.reverseRecOn with
  | nil => intro k; simp [buildDict, dictLookup]
  | append_singleton xs x ih =>
    intro k
    rw [buildDict_concat, dictLookup_upsert]
    simp only [List.reverse_append, List.reverse_singleton,
      List.singleton_append, List.find?_cons]
    by_cases h : x.1 = k
    · simp [h]
    · rw [if_neg (fun hh : k = x.1 => h hh.symm), ih k]
      simp [h]

theorem tryMatchAt_cons_ne (c : Char) (cs : List Char) (h : c ≠ '`') :
    tryMatchAt (c :: cs) = none := by
  unfold tryMatchAt
  rw [if_neg]
  intro hh
  rw [List.take_succ_cons] at hh
  injection hh with h1 h2
  exact h h1

theorem findBlocks_cons_ne (c : Char) (cs : List Char) (h : c ≠ '`') :
    findBlocks (c :: cs) = findBlocks cs := by
  unfold findBlocks
  simp only [List.length_cons]
  simp [findBlocksAux, tryMatchAt_cons_ne c cs h]

theorem findBlocks_drop_left (pre s : List Char)
    (h : ∀ c ∈ pre, c ≠ '`') :
    findBlocks (pre ++ s) = findBlocks s := by
  induction pre with
  | nil => simp
  | cons c p ih =>
    rw [List.cons_append, findBlocks_cons_ne c (p ++ s) (h c (by simp)),
      ih (fun x hx => h x (by simp [hx]))]

/-- Claim C1, counterexample: on the input of the claim the extractor
does not return the claimed value for label 1; the regex of the source
has no optional whitespace after the colon, so the leading separator
space stays in the code value. -/
theorem C1_counterexample :
    dictLookup (extract_snippets_from_response
        "```cpp\n1: int x = 1;\n2: // done\n```".data).1 "1".data ≠
      some "int x = 1;".data := by
  decide

/-- Claim C1 as amended: for a line of a fenced block matching the
pattern, the code value is everything after the colon verbatim with
only trailing whitespace removed; no leading separator space is
consumed, so the example input yields the values with one leading
space.  The second conjunct shows the matcher keeps the full remainder
after the colon for every line number and every remainder. -/
theorem C1_code_kept_after_colon :
    extract_snippets_from_response
        "```cpp\n1: int x = 1;\n2: // done\n```".data =
      ([("1".data, " int x = 1;".data), ("2".data, " // done".data)],
        []) ∧
    ∀ (n : Nat) (rest : List Char),
      matchLine (natDecimal n ++ ':' :: rest) = some (natDecimal n, rest) := by
  constructor
  · decide
  · intro n rest
    have hds : (natDecimal n ++ ':' :: rest).takeWhile pyIsDigit =
        natDecimal n := by
      rw [takeWhile_append_all pyIsDigit _ _ (natDecimal_all_digits n),
        List.takeWhile_cons_of_neg (by decide), List.append_nil]
    have hdr : (natDecimal n ++ ':' :: rest).dropWhile pyIsDigit =
        ':' :: rest := by
      rw [dropWhile_append_all pyIsDigit _ _ (natDecimal_all_digits n),
        List.dropWhile_cons_of_neg (by decide)]
    simp only [matchLine, hds, hdr,
      List.takeWhile_cons_of_neg (show ¬pyIsAlpha ':' = true by decide),
      List.dropWhile_cons_of_neg (show ¬pyIsAlpha ':' = true by decide),
      List.append_nil]
    rw [if_neg (by simp [natDecimal_ne_nil n])]

/-- Claim C2: the dictionary lookup of any label in the extractor
result is the code of the occurrence of that label encountered latest
across all fenced blocks (last write wins, the function is total so no
error arises), and on a concrete input with the same label in two
blocks the second block wins. -/
theorem C2_last_write_wins :
    (∀ s lab : List Char,
      dictLookup (extract_snippets_from_response s).1 lab =
        ((blockEntries s).reverse.find?
          (fun e => decide (e.1 = lab))).map Prod.snd) ∧
    dictLookup (extract_snippets_from_response
        "```cpp\n7: old\n```\ntext\n```cpp\n7: new\n```".data).1
      "7".data = some " new".data := by
  constructor
  · intro s lab
    rw [extract_snippets_eq]
    exact dictLookup_buildDict (blockEntries s) lab
  · decide

/-- Claim C4: the extractor is a total function of the input string;
its result is exactly the dictionary built from the conforming lines of
the fenced blocks together with the list of skipped non-matching lines
reported on the separate stderr channel; an input with no fenced block,
and likewise one with no conforming line, yields the empty mapping
rather than an error. -/
theorem C4_total_with_diagnostics (s : List Char) :
    extract_snippets_from_response s =
      (buildDict (blockEntries s), skippedOf s) ∧
    (findBlocks s = [] → extract_snippets_from_response s = ([], [])) ∧
    (blockEntries s = [] → (extract_snippets_from_response s).1 = []) := by
  refine ⟨extract_snippets_eq s, ?_, ?_⟩
  · intro h
    rw [extract_snippets_eq]
    simp [blockEntries, skippedOf, buildDict, h]
  · intro h
    rw [extract_snippets_eq]
    simp [buildDict, h]

/-- Witness for claim C4 at a concrete fence-free input. -/
theorem C4_total_with_diagnostics_witness :
    findBlocks "no block 3: x".data = [] ∧
    extract_snippets_from_response "no block 3: x".data = ([], []) :=
  ⟨by decide, (C4_total_with_diagnostics "no block 3: x".data).2.1 (by decide)⟩

/-- Claim C5: a conforming line whose code part ends in a backslash
keeps the backslash and the space before it: rstrip removes nothing
when the last character is not whitespace, and on the concrete line
12a the stored value ends in space backslash. -/
theorem C5_backslash_preserved :
    dictLookup (extract_snippets_from_response
        "```cpp\n12a: foo(); \\\n```".data).1 "12a".data =
      some " foo(); \\".data ∧
    ∀ (r : List Char) (c : Char), r.getLast? = some c →
      pyIsSpace c = false → pyRstrip r = r := by
  constructor
  · decide
  · intro r c hc hw
    have h1 : r.reverse.head? = some c := by
      rw [List.head?_reverse]; exact hc
    cases hr : r.reverse with
    | nil => rw [hr] at h1; simp at h1
    | cons a t =>
      rw [hr] at h1
      simp only [List.head?_cons, Option.some.injEq] at h1
      subst h1
      unfold pyRstrip
      rw [hr, List.dropWhile_cons_of_neg (by simp [hw]), ← hr,
        List.reverse_reverse]

/-- Witness for claim C5 at a concrete backslash-ended value. -/
theorem C5_backslash_preserved_witness :
    " x \\".data.getLast? = some '\\' ∧ pyIsSpace '\\' = false ∧
      pyRstrip " x \\".data = " x \\".data :=
  ⟨by decide, by decide,
    C5_backslash_preserved.2 " x \\".data '\\' (by decide) (by decide)⟩

/-- Claim C10: text outside every fenced block never contributes an
entry nor a diagnostic: a backtick-free piece of text in front of the
input leaves the whole extraction unchanged, and on a concrete input
with conforming-shaped lines before and after the fences the result
holds only the entry of the line inside the block, with no skip
diagnostic for the outside lines. -/
theorem C10_outside_text_ignored :
    (∀ pre s : List Char, (∀ c ∈ pre, c ≠ '`') →
      extract_snippets_from_response (pre ++ s) =
        extract_snippets_from_response s) ∧
    extract_snippets_from_response
        "5: before\n```cpp\n1: a\n```\n9: after".data =
      ([("1".data, " a".data)], []) := by
  constructor
  · intro pre s h
    simp only [extract_snippets_eq, blockEntries, skippedOf,
      findBlocks_drop_left pre s h]
  · decide

/-- Witness for claim C10 at a concrete backtick-free text piece. -/
theorem C10_outside_text_ignored_witness :
    (∀ c ∈ "abc\n".data, c ≠ '`') ∧
    extract_snippets_from_response ("abc\n".data ++
        "```cpp\n1: a\n```".data) =
      extract_snippets_from_response "```cpp\n1: a\n```".data :=
  ⟨by decide, C10_outside_text_ignored.1 "abc\n".data
    "```cpp\n1: a\n```".data (by decide)⟩

/-- Blank-line test: a line whose characters are all whitespace,
covering the empty line. -/
def isBlankLine (l : List Char) : Bool :=
  l.all pyIsSpace

/-- Reading of claim C3 as written: the lines of a block are obtained
by splitting on newline boundaries and trimming the leading and
trailing blank lines, the content of every remaining line, including
any indentation of the first non-blank line, left unchanged. -/
def blockLinesBlankTrimmed (b : List Char) : List (List Char) :=
  (((pySplitlines b).dropWhile isBlankLine).reverse.dropWhile
    isBlankLine).reverse

/-- Claim C3, counterexample: for the extracted block of a fenced
region whose first line is indented, the lines the extractor examines
differ from the blank-line-trimmed lines of the claim, because
str.strip removes the indentation of the first non-blank line. -/
theorem C3_counterexample :
    findBlocks "```cpp\n  1: x\n```".data = ["  1: x\n".data] ∧
    blockLines "  1: x\n".data ≠ blockLinesBlankTrimmed "  1: x\n".data := by
  exact ⟨by decide, by decide⟩

/-- Claim C3 as amended: the examined lines of every extracted block
are obtained by removing all leading and trailing whitespace of the
block as a whole (Python str.strip), which removes blank edge lines but
also the indentation of the first non-blank line and the trailing
whitespace of the last, and then splitting on newline boundaries.  The
theorem characterises the trimming: the block decomposes as whitespace,
then the examined text, then whitespace, and the examined text neither
starts nor ends with a whitespace character. -/
theorem C3_strip_then_split (b : List Char) :
    (∃ pre post : List Char,
      (∀ c ∈ pre, pyIsSpace c = true) ∧
      (∀ c ∈ post, pyIsSpace c = true) ∧
      b = pre ++ pyStrip b ++ post) ∧
    (∀ c t, pyStrip b = c :: t → pyIsSpace c = false) ∧
    (∀ c, (pyStrip b).getLast? = some c → pyIsSpace c = false) ∧
    blockLines b = pySplitlines (pyStrip b) := by
  have hmid : b.dropWhile pyIsSpace =
      pyStrip b ++ ((b.dropWhile pyIsSpace).reverse.takeWhile
        pyIsSpace).reverse := by
    conv_lhs => rw [← List.reverse_reverse (b.dropWhile pyIsSpace)]
    conv_lhs => rw [← List.takeWhile_append_dropWhile (p := pyIsSpace)
      (l := (b.dropWhile pyIsSpace).reverse)]
    rw [List.reverse_append]
    rfl
  obtain ⟨post0, hpostws, hmid2⟩ :
      ∃ p, (∀ c ∈ p, pyIsSpace c = true) ∧
        b.dropWhile pyIsSpace = pyStrip b ++ p :=
    ⟨_, fun c hc => List.mem_takeWhile_imp (List.mem_reverse.mp hc), hmid⟩
  refine ⟨⟨b.takeWhile pyIsSpace, post0, ?_, hpostws, ?_⟩, ?_, ?_, rfl⟩
  · intro c hc
    exact List.mem_takeWhile_imp hc
  · conv_lhs => rw [← List.takeWhile_append_dropWhile (p := pyIsSpace)
      (l := b)]
    rw [List.append_assoc, ← hmid2]
  · intro c t hct
    have h2 : b.dropWhile pyIsSpace = c :: (t ++ post0) := by
      rw [hmid2, hct]
      rfl
    exact dropWhile_head_false pyIsSpace b c _ h2
  · intro c hc
    have h2 : ((b.dropWhile pyIsSpace).reverse.dropWhile
        pyIsSpace).reverse.getLast? = some c := hc
    rw [List.getLast?_reverse] at h2
    cases hd : (b.dropWhile pyIsSpace).reverse.dropWhile pyIsSpace with
    | nil => rw [hd] at h2; simp at h2
    | cons a t2 =>
      rw [hd] at h2
      simp only [List.head?_cons, Option.some.injEq] at h2
      exact dropWhile_head_false pyIsSpace _ c t2 (h2 ▸ hd)

/-- Witness for the amended claim C3 at a concrete indented block. -/
theorem C3_strip_then_split_witness :
    pyStrip "  1: x\n".data = '1' :: ": x".data ∧
    pyIsSpace '1' = false ∧
    blockLines "  1: x\n".data = pySplitlines (pyStrip "  1: x\n".data) :=
  ⟨by decide,
    (C3_strip_then_split "  1: x\n".data).2.1 '1' ": x".data (by decide),
    (C3_strip_then_split "  1: x\n".data).2.2.2⟩

/-- Shape of one yielded file line: nonempty, and no newline anywhere
except possibly as the final character. -/
def lineShape (l : List Char) : Prop :=
  l ≠ [] ∧ ∀ c ∈ l.dropLast, c ≠ '\n'

/-- Shape of a whole file-line list: every line has the line shape and
every line except the last ends with a newline. -/
def goodLines : List (List Char) → Prop
  | [] => True
  | [l] => lineShape l
  | l :: l2 :: ls => lineShape l ∧ l.getLast? = some '\n' ∧
      goodLines (l2 :: ls)

theorem goodLines_build (a : List Char) (t : List (List Char))
    (h1 : lineShape a)
    (h2 : t = [] ∨ (a.getLast? = some '\n' ∧ goodLines t)) :
    goodLines (a :: t) := by
  cases t with
  | nil => exact h1
  | cons b bs =>
    rcases h2 with h2 | ⟨hl, hg⟩
    · cases h2
    · exact ⟨h1, hl, hg⟩

theorem goodLines_inv (l : List Char) (ls : List (List Char))
    (h : goodLines (l :: ls)) :
    lineShape l ∧ (ls = [] ∨ (l.getLast? = some '\n' ∧ goodLines ls)) := by
  cases ls with
  | nil => exact ⟨h, Or.inl rfl⟩
  | cons b bs => exact ⟨h.1, Or.inr ⟨h.2.1, h.2.2⟩⟩

theorem pyFileLines_cons (c : Char) (cs : List Char) :
    pyFileLines (c :: cs) =
      if c = '\n' then ['\n'] :: pyFileLines cs
      else match pyFileLines cs with
        | [] => [[c]]
        | l :: ls => (c :: l) :: ls := by
  rfl

theorem pyFileLines_flatten : ∀ s : List Char, (pyFileLines s).flatten = s := by
  intro s
  induction s with
  | nil => rfl
  | cons c cs ih =>
    by_cases hc : c = '\n'
    · subst hc
      simp [pyFileLines, ih]
    · simp only [pyFileLines, hc, if_false]
      cases h : pyFileLines cs with
      | nil =>
        rw [h] at ih
        simp at ih
        simp [ih]
      | cons l ls =>
        rw [h] at ih
        simp [← ih]

theorem pyFileLines_single (l : List Char) (hne : l ≠ [])
    (hno : ∀ c ∈ l.dropLast, c ≠ '\n') : pyFileLines l = [l] := by
  induction l with
  | nil => exact absurd rfl hne
  | cons c cs ih =>
    cases cs with
    | nil =>
      by_cases hc : c = '\n'
      · subst hc; rfl
      · simp [pyFileLines, hc]
    | cons d t =>
      have hc : c ≠ '\n' := hno c (by simp [List.dropLast_cons₂])
      have ht : pyFileLines (d :: t) = [d :: t] :=
        ih (by simp)
          (fun x hx => hno x (by rw [List.dropLast_cons₂]; simp [hx]))
      rw [pyFileLines_cons, if_neg hc, ht]

theorem pyFileLines_line_append (l : List Char) (hs : lineShape l)
    (hl : l.getLast? = some '\n') :
    ∀ b, pyFileLines (l ++ b) = l :: pyFileLines b := by
  obtain ⟨hne, hno⟩ := hs
  induction l with
  | nil => exact absurd rfl hne
  | cons c cs ih =>
    intro b
    cases cs with
    | nil =>
      have hc : c = '\n' := by simpa using hl
      subst hc
      simp [pyFileLines]
    | cons d t =>
      have hc : c ≠ '\n' := hno c (by simp [List.dropLast_cons₂])
      have ht : pyFileLines ((d :: t) ++ b) = (d :: t) :: pyFileLines b :=
        ih (by simpa [List.getLast?_cons_cons] using hl) (by simp)
          (fun x hx => hno x (by rw [List.dropLast_cons₂]; simp [hx])) b
      rw [List.cons_append, pyFileLines_cons, if_neg hc, ht]

theorem goodLines_flatten : ∀ ls : List (List Char), goodLines ls →
    pyFileLines ls.flatten = ls := by
  intro ls
  induction ls with
  | nil => intro; rfl
  | cons l ls ih =>
    intro hg
    obtain ⟨hs, hrest⟩ := goodLines_inv l ls hg
    rcases hrest with rfl | ⟨hl, hg2⟩
    · simp only [List.flatten_cons, List.flatten_nil, List.append_nil]
      exact pyFileLines_single l hs.1 hs.2
    · rw [List.flatten_cons, pyFileLines_line_append l hs hl, ih hg2]

theorem goodLines_pyFileLines : ∀ s : List Char, goodLines (pyFileLines s) := by
  intro s
  induction s with
  | nil => trivial
  | cons c cs ih =>
    by_cases hc : c = '\n'
    · subst hc
      simp only [pyFileLines, if_true]
      exact goodLines_build ['\n'] (pyFileLines cs)
        ⟨by simp, by simp⟩
        (by
          cases h : pyFileLines cs with
          | nil => exact Or.inl rfl
          | cons l ls => exact Or.inr ⟨rfl, h ▸ ih⟩)
    · simp only [pyFileLines, hc, if_false]
      cases h : pyFileLines cs with
      | nil => exact ⟨by simp, by simp [hc]⟩
      | cons l ls =>
        rw [h] at ih
        obtain ⟨hs, hrest⟩ := goodLines_inv l ls ih
        refine goodLines_build (c :: l) ls ?_ ?_
        · refine ⟨by simp, ?_⟩
          intro x hx
          rw [show c :: l = [c] ++ l from rfl,
            List.dropLast_append_of_ne_nil [c] hs.1] at hx
          rcases List.mem_append.mp hx with hx | hx
          · simp at hx
            subst hx
            exact hc
          · exact hs.2 x hx
        · rcases hrest with rfl | ⟨hl, hg2⟩
          · exact Or.inl rfl
          · refine Or.inr ⟨?_, hg2⟩
            rw [show c :: l = [c] ++ l from rfl,
              List.getLast?_append_of_ne_nil [c] hs.1]
            exact hl

theorem numLine_decomp (i : Nat) (l : List Char) :
    natDecimal i ++ ':' :: ' ' :: l = (natDecimal i ++ [':', ' ']) ++ l := by
  simp

theorem numTag_no_nl (i : Nat) :
    ∀ c ∈ natDecimal i ++ [':', ' '], c ≠ '\n' := by
  intro c hc
  rcases List.mem_append.mp hc with hc | hc
  · exact (pyIsDigit_facts c (natDecimal_all_digits i c hc)).2.2.2.1
  · simp at hc
    rcases hc with rfl | rfl <;> decide

theorem numbered_lineShape (i : Nat) (l : List Char) (hs : lineShape l) :
    lineShape (natDecimal i ++ ':' :: ' ' :: l) ∧
      (natDecimal i ++ ':' :: ' ' :: l).getLast? = l.getLast? := by
  obtain ⟨hne, hno⟩ := hs
  rw [numLine_decomp]
  refine ⟨⟨by simp, ?_⟩, List.getLast?_append_of_ne_nil _ hne⟩
  intro c hc
  rw [List.dropLast_append_of_ne_nil _ hne] at hc
  rcases List.mem_append.mp hc with hc | hc
  · exact numTag_no_nl i c hc
  · exact hno c hc

theorem goodLines_numbered : ∀ (ls : List (List Char)) (i : Nat),
    goodLines ls → goodLines (numberedLines i ls) := by
  intro ls
  induction ls with
  | nil => intro i _; trivial
  | cons l t ih =>
    intro i hg
    obtain ⟨hs, hrest⟩ := goodLines_inv l t hg
    simp only [numberedLines]
    refine goodLines_build _ _ (numbered_lineShape i l hs).1 ?_
    rcases hrest with rfl | ⟨hl, hg2⟩
    · exact Or.inl rfl
    · exact Or.inr ⟨(numbered_lineShape i l hs).2.trans hl, ih (i + 1) hg2⟩

theorem stripLine_numbered (i : Nat) (l : List Char) :
    stripLine (natDecimal i ++ ':' :: ' ' :: l) = l := by
  have hds : (natDecimal i ++ ':' :: ' ' :: l).takeWhile pyIsDigit =
      natDecimal i := by
    rw [takeWhile_append_all pyIsDigit _ _ (natDecimal_all_digits i),
      List.takeWhile_cons_of_neg (by decide), List.append_nil]
  have hdr : (natDecimal i ++ ':' :: ' ' :: l).dropWhile pyIsDigit =
      ':' :: ' ' :: l := by
    rw [dropWhile_append_all pyIsDigit _ _ (natDecimal_all_digits i),
      List.dropWhile_cons_of_neg (by decide)]
  unfold stripLine
  rw [hds, hdr,
    List.dropWhile_cons_of_neg (show ¬pyIsAlpha ':' = true by decide),
    if_neg (by simp [natDecimal_ne_nil i])]
  simp [show pyIsSpace ' ' = true by decide]

theorem map_stripLine_numbered : ∀ (ls : List (List Char)) (i : Nat),
    (numberedLines i ls).map stripLine = ls := by
  intro ls
  induction ls with
  | nil => intro i; rfl
  | cons l t ih =>
    intro i
    simp only [numberedLines, List.map_cons, stripLine_numbered, ih]

theorem remove_add_id (G : List Char) :
    remove_line_numbers (add_line_numbers G) = G := by
  unfold remove_line_numbers add_line_numbers
  rw [goodLines_flatten (numberedLines 1 (pyFileLines G))
      (goodLines_numbered (pyFileLines G) 1 (goodLines_pyFileLines G)),
    map_stripLine_numbered (pyFileLines G) 1, pyFileLines_flatten]

/-- Claim C6: applying the Adder, then the Stripper, then the Adder
again is the same as applying the Adder once; the proof goes through
the stronger fact that the Stripper is a left inverse of the Adder on
every file content. -/
theorem C6_add_strip_add_round_trip (F : List Char) :
    add_line_numbers (remove_line_numbers (add_line_numbers F)) =
      add_line_numbers F := by
  rw [remove_add_id]

theorem stripLine_suffix (l : List Char) : stripLine l <:+ l := by
  have h1 : (l.dropWhile pyIsDigit).dropWhile pyIsAlpha <:+ l :=
    (List.dropWhile_suffix pyIsAlpha).trans (List.dropWhile_suffix pyIsDigit)
  unfold stripLine
  by_cases hds : (l.takeWhile pyIsDigit).isEmpty
  · rw [if_pos hds]
  · rw [if_neg hds]
    split
    · rename_i rest heq
      have hrest : rest <:+ l :=
        (List.suffix_cons ':' rest).trans (heq ▸ h1)
      cases rest with
      | nil => exact List.nil_suffix
      | cons w r2 =>
        by_cases hw : pyIsSpace w
        · simp only [hw, if_true]
          exact ((List.suffix_cons w r2).trans hrest)
        · simp only [hw, if_false]
          exact hrest
    · exact List.suffix_refl l

theorem suffix_dropLast_no_nl (l s : List Char) (hs : s <:+ l)
    (hne : s ≠ []) (h : ∀ c ∈ l.dropLast, c ≠ '\n') :
    ∀ c ∈ s.dropLast, c ≠ '\n' := by
  obtain ⟨t, rfl⟩ := hs
  intro c hc
  refine h c ?_
  rw [List.dropLast_append_of_ne_nil t hne]
  exact List.mem_append.mpr (Or.inr hc)

theorem suffix_getLast_eq (l s : List Char) (hs : s <:+ l)
    (hne : s ≠ []) : l.getLast? = s.getLast? := by
  obtain ⟨t, rfl⟩ := hs
  exact List.getLast?_append_of_ne_nil t hne

theorem goodLines_strip_filter : ∀ ls : List (List Char), goodLines ls →
    goodLines ((ls.map stripLine).filter (fun l => !l.isEmpty)) := by
  intro ls
  induction ls with
  | nil => intro; trivial
  | cons l t ih =>
    intro hg
    obtain ⟨hs, hrest⟩ := goodLines_inv l t hg
    simp only [List.map_cons, List.filter_cons]
    by_cases he : (stripLine l).isEmpty
    · simp only [he, Bool.not_true, if_false]
      rcases hrest with rfl | ⟨_, hg2⟩
      · trivial
      · exact ih hg2
    · simp only [he, Bool.not_false, if_true]
      have hne : stripLine l ≠ [] := by
        simpa [List.isEmpty_iff] using he
      refine goodLines_build _ _
        ⟨hne, suffix_dropLast_no_nl l (stripLine l) (stripLine_suffix l)
          hne hs.2⟩ ?_
      cases hft : (t.map stripLine).filter (fun l2 => !l2.isEmpty) with
      | nil => exact Or.inl rfl
      | cons b bs =>
        rcases hrest with rfl | ⟨hl, hg2⟩
        · simp at hft
        · refine Or.inr ⟨?_, hft ▸ ih hg2⟩
          rw [← suffix_getLast_eq l (stripLine l) (stripLine_suffix l) hne]
          exact hl

theorem flatten_filter_nonempty : ∀ xs : List (List Char),
    (xs.filter (fun l => !l.isEmpty)).flatten = xs.flatten := by
  intro xs
  induction xs with
  | nil => rfl
  | cons a as ih =>
    by_cases ha : a.isEmpty
    · have h0 : a = [] := by simpa [List.isEmpty_iff] using ha
      subst h0
      simp [List.filter_cons, ih]
    · simp [List.filter_cons, ha, ih]

/-- Claim C7, counterexample: a line consisting of a numeric prefix and
nothing else loses its newline to the optional whitespace of the
pattern and disappears entirely, so the output of the Stripper can have
fewer lines than its input. -/
theorem C7_counterexample :
    (pyFileLines (remove_line_numbers "a\n12:\n".data)).length ≠
      (pyFileLines "a\n12:\n".data).length := by
  decide

/-- Claim C7 as amended: the Stripper transforms each line
independently and writes the transforms in order, so the output lines
are exactly the nonempty per-line transforms; the line count is
preserved whenever no input line is consumed entirely (a line that is
just a numeric prefix, such as 12: followed by the line end, is
consumed together with its newline and vanishes). -/
theorem C7_per_line_strip (s : List Char) :
    remove_line_numbers s = ((pyFileLines s).map stripLine).flatten ∧
    pyFileLines (remove_line_numbers s) =
      ((pyFileLines s).map stripLine).filter (fun l => !l.isEmpty) ∧
    ((∀ l ∈ pyFileLines s, stripLine l ≠ []) →
      (pyFileLines (remove_line_numbers s)).length =
        (pyFileLines s).length) := by
  have h2 : pyFileLines (remove_line_numbers s) =
      ((pyFileLines s).map stripLine).filter (fun l => !l.isEmpty) := by
    unfold remove_line_numbers
    rw [← flatten_filter_nonempty ((pyFileLines s).map stripLine),
      goodLines_flatten _ (goodLines_strip_filter (pyFileLines s)
        (goodLines_pyFileLines s))]
  refine ⟨rfl, h2, ?_⟩
  intro hne
  rw [h2, List.filter_eq_self.mpr, List.length_map]
  intro x hx
  obtain ⟨l, hl, rfl⟩ := List.mem_map.mp hx
  simpa [List.isEmpty_iff] using hne l hl

/-- Witness for the amended claim C7 at a concrete input where no line
is consumed entirely. -/
theorem C7_per_line_strip_witness :
    (∀ l ∈ pyFileLines "1: a\n".data, stripLine l ≠ []) ∧
    (pyFileLines (remove_line_numbers "1: a\n".data)).length =
      (pyFileLines "1: a\n".data).length :=
  ⟨by decide, (C7_per_line_strip "1: a\n".data).2.2 (by decide)⟩

theorem takeWhile_all (p : Char → Bool) (l : List Char)
    (h : ∀ x ∈ l, p x = true) : l.takeWhile p = l := by
  have h2 := takeWhile_append_all p l [] h
  simpa using h2

/-- Claim C8: the one-row spreadsheet of the claim queried with its
filename yields exactly one record with line 42 and the message text;
a cell that does not match the pattern keeps no line number and the
original full cell text as the warning; and every cell built as the
bracketed line tag followed by a message (first character not
whitespace, no embedded newline) splits into the number and the
message. -/
theorem C8_line_warning_split :
    extract_violations_for_file
        [{ File := "a.cpp".data, Path := "p".data,
           lineAndWarning := "[Line 42] unused variable".data,
           Level := "L".data, Misra := "M".data }] "a.cpp".data =
      [{ File := "a.cpp".data, Path := "p".data, Line := some 42,
         Warning := "unused variable".data, Level := "L".data,
         Misra := "M".data }] ∧
    (∀ t : List Char, (parse_line_warning t).1 = none →
      parse_line_warning t = (none, t)) ∧
    (∀ (n : Nat) (c : Char) (msg : List Char), pyIsSpace c = false →
      (∀ x ∈ msg, x ≠ '\n') →
      parse_line_warning ("[Line ".data ++ natDecimal n ++
          ']' :: ' ' :: c :: msg) = (some n, c :: msg)) := by
  refine ⟨by decide, ?_, ?_⟩
  · intro t h
    unfold parse_line_warning at h ⊢
    cases hm : matchLineWarning t with
    | some p => rw [hm] at h; simp at h
    | none => rfl
  · intro n c msg hc hmsg
    have hcn : c ≠ '\n' := by
      rintro rfl
      simp [pyIsSpace] at hc
    have htake : ("[Line ".data ++ natDecimal n ++
        ']' :: ' ' :: c :: msg).take 6 = "[Line ".data := by
      rw [List.append_assoc,
        show (6 : Nat) = "[Line ".data.length from rfl, List.take_left]
    have hdrop : ("[Line ".data ++ natDecimal n ++
        ']' :: ' ' :: c :: msg).drop 6 =
        natDecimal n ++ ']' :: ' ' :: c :: msg := by
      rw [List.append_assoc,
        show (6 : Nat) = "[Line ".data.length from rfl, List.drop_left]
    have hds : (natDecimal n ++ ']' :: ' ' :: c :: msg).takeWhile
        pyIsDigit = natDecimal n := by
      rw [takeWhile_append_all pyIsDigit _ _ (natDecimal_all_digits n),
        List.takeWhile_cons_of_neg (by decide), List.append_nil]
    have hdr : (natDecimal n ++ ']' :: ' ' :: c :: msg).dropWhile
        pyIsDigit = ']' :: ' ' :: c :: msg := by
      rw [dropWhile_append_all pyIsDigit _ _ (natDecimal_all_digits n),
        List.dropWhile_cons_of_neg (by decide)]
    have hmsg2 : (c :: msg).takeWhile (fun x => x ≠ '\n') = c :: msg := by
      refine takeWhile_all _ _ ?_
      intro x hx
      rcases List.mem_cons.mp hx with rfl | hx
      · simp [hcn]
      · simp [hmsg x hx]
    have hws : wsThenMessage (' ' :: c :: msg) = some (c :: msg) := by
      unfold wsThenMessage
      rw [List.dropWhile_cons_of_pos (by decide),
        List.dropWhile_cons_of_neg (by simp [hc])]
      simp only [hmsg2]
    have hmatch : matchLineWarning ("[Line ".data ++ natDecimal n ++
        ']' :: ' ' :: c :: msg) = some (n, c :: msg) := by
      unfold matchLineWarning
      rw [htake, if_pos rfl, hdrop]
      simp only [hds, hdr,
        if_neg (show ¬(natDecimal n).isEmpty = true by
          simp [natDecimal_ne_nil n]), hws, Option.map_some]
      simp [digitsToNat_natDecimal]
    unfold parse_line_warning
    rw [hmatch]

/-- Witness for claim C8 at a concrete non-matching cell and a concrete
constructed cell. -/
theorem C8_line_warning_split_witness :
    ((parse_line_warning "no tag".data).1 = none ∧
      parse_line_warning "no tag".data = (none, "no tag".data)) ∧
    (pyIsSpace 'u' = false ∧ (∀ x ∈ "v".data, x ≠ '\n') ∧
      parse_line_warning ("[Line ".data ++ natDecimal 7 ++
        ']' :: ' ' :: 'u' :: "v".data) = (some 7, 'u' :: "v".data)) :=
  ⟨⟨by decide, C8_line_warning_split.2.1 "no tag".data (by decide)⟩,
    ⟨by decide, by decide,
      C8_line_warning_split.2.2 7 'u' "v".data (by decide) (by decide)⟩⟩

/-- Claim C9: the guarded violation extraction never fails: a raised
read or parse error (modelled by the Except input standing for the
fallible workbook read) is caught, reported on the stderr channel and
turned into an empty list, and a target filename matching no row, in
particular one absent from the sheet, yields an empty list and no
error. -/
theorem C9_never_raises :
    (∀ e target : List Char,
      extract_violations_io (Except.error e) target =
        ([], ["Error parsing Excel file: ".data ++ e])) ∧
    (∀ (rows : List ExcelRow) (target : List Char),
      (∀ r ∈ rows, r.File ≠ target) →
      extract_violations_io (Except.ok rows) target = ([], [])) := by
  constructor
  · intro e target
    rfl
  · intro rows target h
    have hf : rows.filter (fun r => r.File = target) = [] := by
      refine List.filter_eq_nil_iff.mpr ?_
      intro r hr
      simp [h r hr]
    simp [extract_violations_io, extract_violations_for_file, hf]

/-- Concrete spreadsheet row used in the claim C9 witness. -/
def rowB : ExcelRow :=
  { File := "b.cpp".data, Path := "p".data,
    lineAndWarning := "[Line 1] w".data, Level := "L".data,
    Misra := "M".data }

/-- Witness for claim C9 at a concrete sheet without the target. -/
theorem C9_never_raises_witness :
    (∀ r ∈ [rowB], r.File ≠ "a.cpp".data) ∧
    extract_violations_io (Except.ok [rowB]) "a.cpp".data = ([], []) :=
  ⟨by decide, C9_never_raises.2 [rowB] "a.cpp".data (by decide)⟩

example : matchLine "1: int x = 1;".data = some ("1".data, " int x = 1;".data) := by decide
example : pyRstrip " int x = 1;".data = " int x = 1;".data := by decide
example : pySplitlines "1: a\n2: b\n".data = ["1: a".data, "2: b".data] := by decide
example : pyStrip "  1: x".data = "1: x".data := by decide
example : natDecimal 120 = ['1', '2', '0'] := by decide
example : digitsToNat ['4', '2'] = 42 := by decide
example : findBlocks "```cpp\n1: int x = 1;\n2: // done\n```".data =
    ["1: int x = 1;\n2: // done\n".data] := by decide
example : extract_snippets_from_response
    "```cpp\n1: int x = 1;\n2: // done\n```".data =
    ([("1".data, " int x = 1;".data), ("2".data, " // done".data)], []) := by
  decide
example : findBlocks "```cpp \n \n  1: a\n```".data = ["  1: a\n".data] := by
  decide
example : findBlocks "```c\n1: a\n```".data = [] := by decide
example : findBlocks "````cpp\n1: a\n```".data = ["1: a\n".data] := by decide
example : extract_snippets_from_response "no fences here 1: x".data =
    ([], []) := by decide
example : add_line_numbers "a\nbb\n".data = "1: a\n2: bb\n".data := by decide
example : remove_line_numbers "1: a\n2: bb\n".data = "a\nbb\n".data := by
  decide
example : remove_line_numbers "a\n12:\n".data = "a\n".data := by decide
example : stripLine "12:\n".data = [] := by decide
example : parse_line_warning "[Line 42] unused variable".data =
    (some 42, "unused variable".data) := by decide
example : parse_line_warning "[Line 5]   ".data = (some 5, [' ']) := by decide
example : parse_line_warning "nothing here".data =
    (none, "nothing here".data) := by decide
